import Mathlib

/-!
Verification development for the surreal-stuff ingestion scripts.

The repository recovers top-level JSON objects from a malformed dump with a
quote-aware, escape-aware brace-depth scanner, decodes each recovered span,
and ships fixed-size batches to SurrealDB.  We embed the three scripts
(`src/json-to-db.ts`, `src/convert.ts`, the `.surql` generator) shallowly:
strings become `List Char`, the readline interface's line splitting becomes a
`List (List Char)` of input lines, JavaScript truthiness on optional fields
becomes explicit tests on `Option` values, and the external `JSON.parse` is a
parameter `parse : List Char → Option E`.
-/

namespace SurrealStuff

/-- Genre record, from the `Genre` interface in `json-to-db.ts`. -/
structure Genre where
  id : Int
  name : String
deriving DecidableEq, Repr

/-- Collection record, from the `Collection` interface in `json-to-db.ts`.
Optional fields are `Option`; JS `undefined` is `none`. -/
structure Collection where
  id : Int
  name : Option String
  poster_path : Option String
  backdrop_path : Option String
deriving DecidableEq, Repr

/-- Movie record, from the `Movie` interface in `json-to-db.ts`.  JS numbers
carry no arithmetic here (they are only tested for truthiness and passed
through), so they are embedded as `Int`. -/
structure Movie where
  id : Int
  title : Option String
  budget : Option Int
  overview : Option String
  poster_path : Option String
  release_date : Option String
  revenue : Option Int
  runtime : Option Int
  tagline : Option String
  vote_average : Option Int
  original_language : Option String
  genres : List Genre
  belongs_to_collection : Option Collection
deriving DecidableEq, Repr

/-- JavaScript `x || d` on an optional string: `undefined` and `""` are falsy. -/
def jsOrStr (o : Option String) (d : String) : String :=
  match o with
  | none => d
  | some s => if s = "" then d else s

/-- JavaScript `x || d` on an optional number: `undefined` and `0` are falsy. -/
def jsOrInt (o : Option Int) (d : Int) : Int :=
  match o with
  | none => d
  | some n => if n = 0 then d else n

/-- The record built by `formatMovieForDB` in `json-to-db.ts`.  The
`new Date(s)` constructor is embedded by the string it is applied to;
the `null` collection is `none`. -/
structure FmtMovie where
  id : Int
  title : String
  budget : Int
  overview : String
  poster : String
  release_date : String
  revenue : Int
  runtime : Int
  tagline : String
  vote_average : Int
  language : String
  genre : List String
  collection : Option String
deriving DecidableEq, Repr

/-- `formatMovieForDB` from `json-to-db.ts` lines 196-216, field by field. -/
def formatMovieForDB (movie : Movie) : FmtMovie :=
  { id := movie.id
    title := jsOrStr movie.title ""
    budget := jsOrInt movie.budget 0
    overview := jsOrStr movie.overview ""
    poster := jsOrStr movie.poster_path "/empty"
    release_date :=
      match movie.release_date with
      | none => "0001-01-01"
      | some s => if s = "" then "0001-01-01" else s
    revenue := jsOrInt movie.revenue 0
    runtime := jsOrInt movie.runtime 0
    tagline := jsOrStr movie.tagline ""
    vote_average := jsOrInt movie.vote_average 0
    language := "language:" ++ jsOrStr movie.original_language "en"
    genre :=
      if movie.genres.length > 0 then
        movie.genres.map (fun genre => "genre:" ++ toString genre.id)
      else ["genre:0"]
    collection :=
      movie.belongs_to_collection.map
        (fun c => "collection:" ++ toString c.id) }

/-! ## The pure Scanner

The quote-aware, escape-aware brace-depth state machine shared (character
logic verbatim) by `json-to-db.ts` and `convert.ts`.  It is factored out here
so the pipeline can be proved equal to "scan, then decode and batch the
emitted spans".  A step returns the successor state together with the span
emitted by that character, if any. -/

/-- Scanner state: the object buffer, the brace depth (`openBraces`, an `Int`
because the source decrements below zero on stray closing braces), and the
quote/escape flags. -/
structure ScanCore where
  buffer : List Char
  depth : Int
  inQuotes : Bool
  escapeNext : Bool
deriving DecidableEq, Repr

/-- Initial scanner state of both scripts. -/
def scanInit : ScanCore := ⟨[], 0, false, false⟩

/-- One character of the scanner of `json-to-db.ts` lines 70-121: append the
character to the buffer, then run the escape / backslash / quote / brace
transitions in the source's order; closing the last brace emits the buffer as
a span and resets it. -/
def scanStep (s : ScanCore) (c : Char) : ScanCore × Option (List Char) :=
  let buf := s.buffer ++ [c]
  if s.escapeNext then ({ s with buffer := buf, escapeNext := false }, none)
  else if c = '\\' then ({ s with buffer := buf, escapeNext := true }, none)
  else if c = '"' then ({ s with buffer := buf, inQuotes := !s.inQuotes }, none)
  else if ¬s.inQuotes ∧ c = '{' then
    ({ s with buffer := buf, depth := s.depth + 1 }, none)
  else if ¬s.inQuotes ∧ c = '}' then
    if s.depth - 1 = 0 then
      ({ s with buffer := [], depth := s.depth - 1 }, some buf)
    else ({ s with buffer := buf, depth := s.depth - 1 }, none)
  else ({ s with buffer := buf }, none)

/-- Scan the characters of one input line, collecting emitted spans. -/
def scanLineChars (s : ScanCore) (cs : List Char) : ScanCore × List (List Char) :=
  cs.foldl (fun a c => let r := scanStep a.1 c; (r.1, a.2 ++ r.2.toList)) (s, [])

/-- End-of-line action of `json-to-db.ts` lines 125-127: append a newline to
the buffer when an object is still open. -/
def scanLineEnd (s : ScanCore) : ScanCore :=
  if ¬s.buffer = [] ∧ 0 < s.depth then { s with buffer := s.buffer ++ ['\n'] } else s

/-- Scan one full input line (characters, then the end-of-line action). -/
def scanLine (s : ScanCore) (cs : List Char) : ScanCore × List (List Char) :=
  let r := scanLineChars s cs
  (scanLineEnd r.1, r.2)

/-- Scan a whole input (the list of lines delivered by readline), returning
the final scanner state and every emitted span in order. -/
def scanAll (lines : List (List Char)) : ScanCore × List (List Char) :=
  lines.foldl (fun a l => let r := scanLine a.1 l; (r.1, a.2 ++ r.2)) (scanInit, [])

/-! ## The ingestion pipeline of `json-to-db.ts`

State of the `for await (const line of rl)` loop of `sendMoviesToSurrealDB`,
lines 61-138.  `JSON.parse` is the parameter `parse`; a `sendBatchToSurrealDB`
call is recorded by appending the batch to `dispatched`; a
`console.error("Error parsing object", ...)` call is counted in `errors`. -/

structure PipeSt (E : Type) where
  buffer : List Char
  depth : Int
  inQuotes : Bool
  escapeNext : Bool
  movieCount : Nat
  batchCount : Nat
  currentBatch : List E
  dispatched : List (List E)
  errors : Nat
deriving DecidableEq, Repr

/-- Initial pipeline state (`json-to-db.ts` lines 61-67). -/
def pipeInit {E : Type} : PipeSt E := ⟨[], 0, false, false, 0, 0, [], [], 0⟩

/-- One character of the inner loop of `sendMoviesToSurrealDB`
(`json-to-db.ts` lines 70-122): the same scanner transitions, and on closing
an object, parse the buffer; on success push the movie onto the current batch
and dispatch the batch once it reaches `batchSize`; on failure count the
parse error.  The buffer is reset in both cases. -/
def pipeChar {E : Type} (parse : List Char → Option E) (batchSize : Nat)
    (p : PipeSt E) (c : Char) : PipeSt E :=
  let buf := p.buffer ++ [c]
  if p.escapeNext then { p with buffer := buf, escapeNext := false }
  else if c = '\\' then { p with buffer := buf, escapeNext := true }
  else if c = '"' then { p with buffer := buf, inQuotes := !p.inQuotes }
  else if ¬p.inQuotes ∧ c = '{' then { p with buffer := buf, depth := p.depth + 1 }
  else if ¬p.inQuotes ∧ c = '}' then
    if p.depth - 1 = 0 then
      match parse buf with
      | some movie =>
        let cb := p.currentBatch ++ [movie]
        if batchSize ≤ cb.length then
          { p with
            buffer := []
            depth := p.depth - 1
            movieCount := p.movieCount + 1
            currentBatch := []
            batchCount := p.batchCount + 1
            dispatched := p.dispatched ++ [cb] }
        else
          { p with
            buffer := []
            depth := p.depth - 1
            movieCount := p.movieCount + 1
            currentBatch := cb }
      | none =>
        { p with buffer := [], depth := p.depth - 1, errors := p.errors + 1 }
    else { p with buffer := buf, depth := p.depth - 1 }
  else { p with buffer := buf }

/-- End-of-line action of the pipeline (`json-to-db.ts` lines 125-127). -/
def pipeLineEnd {E : Type} (p : PipeSt E) : PipeSt E :=
  if ¬p.buffer = [] ∧ 0 < p.depth then { p with buffer := p.buffer ++ ['\n'] } else p

/-- One full input line of the pipeline. -/
def pipeLine {E : Type} (parse : List Char → Option E) (batchSize : Nat)
    (p : PipeSt E) (cs : List Char) : PipeSt E :=
  pipeLineEnd (cs.foldl (pipeChar parse batchSize) p)

/-- Final-batch dispatch of `json-to-db.ts` lines 131-138: after the stream
ends, a non-empty open batch is sent as one more batch. -/
def pipeFinal {E : Type} (p : PipeSt E) : PipeSt E :=
  if 0 < p.currentBatch.length then
    { p with
      dispatched := p.dispatched ++ [p.currentBatch]
      batchCount := p.batchCount + 1 }
  else p

/-- The whole run of `sendMoviesToSurrealDB` over the input lines (the DB
connection handshake is external; a dispatched batch is modelled as always
committing, the failing sink is studied separately in `sendBatchToSurrealDB`). -/
def sendMoviesToSurrealDB {E : Type} (parse : List Char → Option E)
    (batchSize : Nat) (lines : List (List Char)) : PipeSt E :=
  pipeFinal (lines.foldl (pipeLine parse batchSize) pipeInit)

/-- The progress/completion report of `json-to-db.ts` lines 110 and 140-142:
the pair (records created, batches). -/
def finalReport {E : Type} (p : PipeSt E) : Nat × Nat :=
  (p.movieCount, p.batchCount)

/-! ## The array-file writer of `convert.ts`

`fixJsonFile` uses the same character transitions but, unlike
`json-to-db.ts`, it appends the *whole line* to `lineBuffer` before scanning
the line's characters, and on closing an object it writes `lineBuffer.trim()`
to the output.  The writes of the emitted spans are collected in `output`
(the surrounding `[`, `,` and `]` glyphs are not modelled). -/

/-- JS whitespace relevant to `String.prototype.trim` on this data. -/
def isJsWhitespace (c : Char) : Bool :=
  c = ' ' || c = '\t' || c = '\n' || c = '\r' || c = '\x0c'

/-- `lineBuffer.trim()`: drop leading and trailing whitespace. -/
def trimChars (l : List Char) : List Char :=
  ((l.dropWhile isJsWhitespace).reverse.dropWhile isJsWhitespace).reverse

/-- State of the `fixJsonFile` loop (`convert.ts` lines 25-29). -/
structure ConvSt where
  isFirstObject : Bool
  lineBuffer : List Char
  depth : Int
  inQuotes : Bool
  escapeNext : Bool
  output : List (List Char)
deriving DecidableEq, Repr

/-- Initial state of `fixJsonFile`. -/
def convInit : ConvSt := ⟨true, [], 0, false, false, []⟩

/-- One character of the scan loop of `convert.ts` lines 35-74.  The
character is *not* appended here (the whole line was already appended to the
buffer); on closing the last brace the trimmed line buffer is written out and
the buffer reset. -/
def convChar (s : ConvSt) (c : Char) : ConvSt :=
  if s.escapeNext then { s with escapeNext := false }
  else if c = '\\' then { s with escapeNext := true }
  else if c = '"' then { s with inQuotes := !s.inQuotes }
  else if ¬s.inQuotes ∧ c = '{' then { s with depth := s.depth + 1 }
  else if ¬s.inQuotes ∧ c = '}' then
    if s.depth - 1 = 0 then
      { s with
        depth := s.depth - 1
        isFirstObject := false
        output := s.output ++ [trimChars s.lineBuffer]
        lineBuffer := [] }
    else { s with depth := s.depth - 1 }
  else s

/-- One input line of `fixJsonFile` (`convert.ts` lines 31-79): append the
whole line to the buffer, scan the line's characters, then append a newline
if the buffer is still non-empty. -/
def convLine (s : ConvSt) (cs : List Char) : ConvSt :=
  let s1 := { s with lineBuffer := s.lineBuffer ++ cs }
  let s2 := cs.foldl convChar s1
  if 0 < s2.lineBuffer.length then { s2 with lineBuffer := s2.lineBuffer ++ ['\n'] }
  else s2

/-- The whole run of `fixJsonFile` over the input lines. -/
def fixJsonFile (lines : List (List Char)) : ConvSt :=
  lines.foldl convLine convInit

/-! ## `escapeStr`

`escapeStr` from `json-to-db.ts` lines 181-191 (the identical copy in the
`.surql` generator differs only in comments): six sequential global
single-character replacements, backslashes first. -/

/-- JS `str.replace(/pat/g, rep)` for a single-character pattern. -/
def replaceChar (pat : Char) (rep : List Char) (l : List Char) : List Char :=
  l.flatMap fun c => if c = pat then rep else [c]

/-- The six replacement stages of `escapeStr`, in source order:
backslash, single quote, newline, carriage return, tab, form feed. -/
def escapeStrChars (s : List Char) : List Char :=
  replaceChar '\x0c' ['\\', 'f']
    (replaceChar '\t' ['\\', 't']
      (replaceChar '\r' ['\\', 'r']
        (replaceChar '\n' ['\\', 'n']
          (replaceChar '\x27' ['\\', '\x27']
            (replaceChar '\\' ['\\', '\\'] s)))))

/-- `escapeStr(str)`: `undefined` and the empty string are falsy and return
`""`; otherwise the replacement chain runs. -/
def escapeStr (str : Option (List Char)) : List Char :=
  match str with
  | none => []
  | some s => if s = [] then [] else escapeStrChars s

/-! ## The sink: `sendBatchToSurrealDB`

`json-to-db.ts` lines 153-176 wraps the per-movie `db.create` calls in
`BEGIN TRANSACTION` / `COMMIT TRANSACTION`, with `CANCEL TRANSACTION` and a
rethrow on any error.  The external SurrealDB session is modelled with the
standard transactional semantics: `committed` rows, plus a `pending` buffer
filled inside a transaction, merged on commit and dropped on cancel.  A
`create` failure is driven by an oracle `fails`. -/

structure SurrealDB where
  committed : List FmtMovie
  pending : List FmtMovie
deriving DecidableEq, Repr

/-- `db.query('BEGIN TRANSACTION;')`: open a fresh transaction. -/
def dbBegin (db : SurrealDB) : SurrealDB := { db with pending := [] }

/-- `db.query('COMMIT TRANSACTION;')`: persist the pending rows. -/
def dbCommit (db : SurrealDB) : SurrealDB :=
  { committed := db.committed ++ db.pending, pending := [] }

/-- `db.query('CANCEL TRANSACTION;')`: drop the pending rows. -/
def dbCancel (db : SurrealDB) : SurrealDB := { db with pending := [] }

/-- The `for (const movie of formattedMovies) await db.create('movie', movie)`
loop: sequential creates, stopping with the error state at the first failing
create (`Sum.inl` = a create threw, `Sum.inr` = all succeeded). -/
def createAll (fails : FmtMovie → Bool) (db : SurrealDB) :
    List FmtMovie → Sum SurrealDB SurrealDB
  | [] => Sum.inr db
  | m :: ms =>
    if fails m then Sum.inl db
    else createAll fails { db with pending := db.pending ++ [m] } ms

/-- `sendBatchToSurrealDB` (`json-to-db.ts` lines 153-176): begin, format and
create every movie, commit; on any error cancel the transaction and rethrow
(`Except.error` carries the session state after the rollback). -/
def sendBatchToSurrealDB (fails : FmtMovie → Bool) (db : SurrealDB)
    (movies : List Movie) : Except SurrealDB SurrealDB :=
  let db1 := dbBegin db
  let formattedMovies := movies.map formatMovieForDB
  match createAll fails db1 formattedMovies with
  | Sum.inr db2 => Except.ok (dbCommit db2)
  | Sum.inl db2 => Except.error (dbCancel db2)

/-! ## Decode-and-batch over emitted spans

The pipeline of `sendMoviesToSurrealDB` is proved below to factor as: run the
pure scanner, then fold this span-processing step over the emitted spans.
`PS` carries exactly the non-scanner fields of `PipeSt`. -/

structure PS (E : Type) where
  mc : Nat
  er : Nat
  bc : Nat
  cur : List E
  dis : List (List E)
deriving DecidableEq, Repr

/-- Initial counters and batch state. -/
def psInit {E : Type} : PS E := ⟨0, 0, 0, [], []⟩

/-- Processing of one emitted span (the body of the `openBraces === 0` block
of `json-to-db.ts`): parse; on success push and possibly dispatch, on failure
count the error. -/
def psStep {E : Type} (parse : List Char → Option E) (batchSize : Nat)
    (ps : PS E) (sp : List Char) : PS E :=
  match parse sp with
  | none => { ps with er := ps.er + 1 }
  | some movie =>
    let cb := ps.cur ++ [movie]
    if batchSize ≤ cb.length then
      { ps with
        mc := ps.mc + 1
        cur := []
        bc := ps.bc + 1
        dis := ps.dis ++ [cb] }
    else { ps with mc := ps.mc + 1, cur := cb }

/-- Fold the span-processing step over a list of spans. -/
def psRun {E : Type} (parse : List Char → Option E) (batchSize : Nat)
    (spans : List (List Char)) (ps : PS E) : PS E :=
  spans.foldl (psStep parse batchSize) ps

/-- Final-batch dispatch at the `PS` level. -/
def psFinal {E : Type} (ps : PS E) : PS E :=
  if 0 < ps.cur.length then
    { ps with dis := ps.dis ++ [ps.cur], bc := ps.bc + 1 }
  else ps

/-- The scanner fields of a pipeline state. -/
def PipeSt.core {E : Type} (p : PipeSt E) : ScanCore :=
  ⟨p.buffer, p.depth, p.inQuotes, p.escapeNext⟩

/-- The decode-and-batch fields of a pipeline state. -/
def PipeSt.proj {E : Type} (p : PipeSt E) : PS E :=
  ⟨p.movieCount, p.errors, p.batchCount, p.currentBatch, p.dispatched⟩

/-! ## The batch chunking function

The pure content of the Batcher: push entities one at a time, closing a batch
each time the open batch reaches `batchSize`.  Returns the closed batches and
the final open batch. -/

def chunkAcc {α : Type} (batchSize : Nat) :
    List α → List α → List (List α) × List α
  | cur, [] => ([], cur)
  | cur, x :: xs =>
    if batchSize ≤ (cur ++ [x]).length then
      ((cur ++ [x]) :: (chunkAcc batchSize [] xs).1, (chunkAcc batchSize [] xs).2)
    else chunkAcc batchSize (cur ++ [x]) xs

/-- Closed batches of a run plus the dispatched final batch (dropped when
empty). -/
def finalizeChunks {α : Type} (batchSize : Nat) (l : List α) : List (List α) :=
  (chunkAcc batchSize [] l).1 ++
    if 0 < (chunkAcc batchSize [] l).2.length then [(chunkAcc batchSize [] l).2] else []

/-! ## Lemmas on the chunking function -/

theorem chunkAcc_lengths {α : Type} {batchSize : Nat} (hB : 0 < batchSize) :
    ∀ (l cur : List α), cur.length < batchSize →
      ((chunkAcc batchSize cur l).1).length = (cur.length + l.length) / batchSize ∧
      ((chunkAcc batchSize cur l).2).length = (cur.length + l.length) % batchSize := by
  intro l
  induction l with
  | nil =>
    intro cur hcur
    simp [chunkAcc, Nat.div_eq_of_lt hcur, Nat.mod_eq_of_lt hcur]
  | cons x xs ih =>
    intro cur hcur
    simp only [chunkAcc]
    by_cases h : batchSize ≤ (cur ++ [x]).length
    · rw [if_pos h]
      have hlen : cur.length + 1 = batchSize := by
        simp only [List.length_append, List.length_singleton] at h
        omega
      have ihe := ih [] (by simpa using hB)
      simp only [List.length_nil, Nat.zero_add] at ihe
      have he : cur.length + (xs.length + 1) = xs.length + batchSize := by omega
      constructor
      · simp only [List.length_cons]
        rw [ihe.1, he, Nat.add_div_right _ hB]
      · simp only [List.length_cons]
        rw [ihe.2, he, Nat.add_mod_right]
    · rw [if_neg h]
      have hlt : (cur ++ [x]).length < batchSize := by omega
      have ihe := ih (cur ++ [x]) hlt
      simp only [List.length_append, List.length_singleton] at ihe
      constructor
      · rw [ihe.1]; congr 1; simp only [List.length_cons]; omega
      · rw [ihe.2]; congr 1; simp only [List.length_cons]; omega

theorem chunkAcc_closed_len {α : Type} {batchSize : Nat} (hB : 0 < batchSize) :
    ∀ (l cur : List α), cur.length < batchSize →
      ∀ b ∈ (chunkAcc batchSize cur l).1, b.length = batchSize := by
  intro l
  induction l with
  | nil => intro cur _ b hb; simp [chunkAcc] at hb
  | cons x xs ih =>
    intro cur hcur b hb
    simp only [chunkAcc] at hb
    by_cases h : batchSize ≤ (cur ++ [x]).length
    · rw [if_pos h] at hb
      simp only [List.mem_cons] at hb
      rcases hb with hb | hb
      · subst hb
        simp only [List.length_append, List.length_singleton] at h ⊢
        omega
      · exact ih [] (by simpa using hB) b hb
    · rw [if_neg h] at hb
      have hlt : (cur ++ [x]).length < batchSize := by omega
      exact ih (cur ++ [x]) hlt b hb

theorem chunkAcc_join {α : Type} (batchSize : Nat) :
    ∀ (l cur : List α),
      ((chunkAcc batchSize cur l).1).flatten ++ (chunkAcc batchSize cur l).2 =
        cur ++ l := by
  intro l
  induction l with
  | nil => intro cur; simp [chunkAcc]
  | cons x xs ih =>
    intro cur
    simp only [chunkAcc]
    by_cases h : batchSize ≤ (cur ++ [x]).length
    · rw [if_pos h]
      simp only [List.flatten_cons, List.append_assoc]
      rw [ih []]
      simp
    · rw [if_neg h]
      rw [ih (cur ++ [x])]
      simp

/-! ## Lemmas on the span-processing fold -/

theorem psRun_mc {E : Type} (parse : List Char → Option E) (batchSize : Nat) :
    ∀ (spans : List (List Char)) (ps : PS E),
      (psRun parse batchSize spans ps).mc = ps.mc + (spans.filterMap parse).length := by
  intro spans
  induction spans with
  | nil => intro ps; simp [psRun]
  | cons sp spans ih =>
    intro ps
    have hstep : psRun parse batchSize (sp :: spans) ps =
        psRun parse batchSize spans (psStep parse batchSize ps sp) := by
      simp [psRun]
    rw [hstep, ih]
    cases hp : parse sp with
    | none => simp [psStep, hp, List.filterMap_cons]
    | some m =>
      simp only [psStep, hp, List.filterMap_cons, List.length_cons]
      by_cases hb : batchSize ≤ (ps.cur ++ [m]).length
      · rw [if_pos hb]; dsimp only; omega
      · rw [if_neg hb]; dsimp only; omega

theorem psRun_er {E : Type} (parse : List Char → Option E) (batchSize : Nat) :
    ∀ (spans : List (List Char)) (ps : PS E),
      (psRun parse batchSize spans ps).er =
        ps.er + spans.countP (fun sp => (parse sp).isNone) := by
  intro spans
  induction spans with
  | nil => intro ps; simp [psRun]
  | cons sp spans ih =>
    intro ps
    have hstep : psRun parse batchSize (sp :: spans) ps =
        psRun parse batchSize spans (psStep parse batchSize ps sp) := by
      simp [psRun]
    rw [hstep, ih, List.countP_cons]
    cases hp : parse sp with
    | none => simp [psStep, hp]; omega
    | some m =>
      simp only [psStep, hp, Option.isNone_some]
      by_cases hb : batchSize ≤ (ps.cur ++ [m]).length
      · rw [if_pos hb]; simp
      · rw [if_neg hb]; simp

theorem psRun_bc_dis {E : Type} (parse : List Char → Option E) (batchSize : Nat) :
    ∀ (spans : List (List Char)) (ps : PS E), ps.bc = ps.dis.length →
      (psRun parse batchSize spans ps).bc =
        (psRun parse batchSize spans ps).dis.length := by
  intro spans
  induction spans with
  | nil => intro ps h; simpa [psRun] using h
  | cons sp spans ih =>
    intro ps h
    have hstep : psRun parse batchSize (sp :: spans) ps =
        psRun parse batchSize spans (psStep parse batchSize ps sp) := by
      simp [psRun]
    rw [hstep]
    apply ih
    cases hp : parse sp with
    | none => simp [psStep, hp, h]
    | some m =>
      simp only [psStep, hp]
      by_cases hb : batchSize ≤ (ps.cur ++ [m]).length
      · rw [if_pos hb]; simp [h]
      · rw [if_neg hb]; simp [h]

theorem psRun_chunk {E : Type} (parse : List Char → Option E) {batchSize : Nat}
    (hB : 0 < batchSize) :
    ∀ (spans : List (List Char)) (ps : PS E), ps.cur.length < batchSize →
      (psRun parse batchSize spans ps).dis =
        ps.dis ++ (chunkAcc batchSize ps.cur (spans.filterMap parse)).1 ∧
      (psRun parse batchSize spans ps).cur =
        (chunkAcc batchSize ps.cur (spans.filterMap parse)).2 := by
  intro spans
  induction spans with
  | nil => intro ps _; simp [psRun, chunkAcc]
  | cons sp spans ih =>
    intro ps hcur
    have hstep : psRun parse batchSize (sp :: spans) ps =
        psRun parse batchSize spans (psStep parse batchSize ps sp) := by
      simp [psRun]
    rw [hstep]
    cases hp : parse sp with
    | none =>
      have hps : psStep parse batchSize ps sp = { ps with er := ps.er + 1 } := by
        simp [psStep, hp]
      rw [hps]
      have ihe := ih { ps with er := ps.er + 1 } (by simpa using hcur)
      simpa [List.filterMap_cons, hp] using ihe
    | some m =>
      simp only [List.filterMap_cons, hp, chunkAcc]
      by_cases hb : batchSize ≤ (ps.cur ++ [m]).length
      · have hps : psStep parse batchSize ps sp =
            { ps with
              mc := ps.mc + 1
              cur := []
              bc := ps.bc + 1
              dis := ps.dis ++ [ps.cur ++ [m]] } := by
          simp only [psStep, hp]
          rw [if_pos hb]
        rw [hps, if_pos hb]
        have ihe := ih
          { ps with
            mc := ps.mc + 1
            cur := []
            bc := ps.bc + 1
            dis := ps.dis ++ [ps.cur ++ [m]] } (by simpa using hB)
        simp only at ihe
        refine ⟨?_, ihe.2⟩
        rw [ihe.1]
        simp [List.append_assoc]
      · have hps : psStep parse batchSize ps sp =
            { ps with mc := ps.mc + 1, cur := ps.cur ++ [m] } := by
          simp only [psStep, hp]
          rw [if_neg hb]
        rw [hps, if_neg hb]
        have hlt : (ps.cur ++ [m]).length < batchSize := by omega
        have ihe := ih { ps with mc := ps.mc + 1, cur := ps.cur ++ [m] } hlt
        simpa using ihe

/-! ## Simulation: the pipeline is the scanner plus span processing -/

theorem pipeChar_sim {E : Type} (parse : List Char → Option E) (batchSize : Nat)
    (p : PipeSt E) (c : Char) :
    (pipeChar parse batchSize p c).core = (scanStep p.core c).1 ∧
    (pipeChar parse batchSize p c).proj =
      psRun parse batchSize ((scanStep p.core c).2.toList) p.proj := by
  rcases p with ⟨buf, d, q, e, mc, bc, cur, dis, er⟩
  simp only [pipeChar, scanStep, PipeSt.core, PipeSt.proj, Bool.not_eq_true]
  by_cases he : e
  · simp [he, psRun]
  · simp only [he, Bool.false_eq_true, if_false]
    by_cases hbs : c = '\\'
    · simp [hbs, psRun]
    · simp only [hbs, if_false]
      by_cases hq : c = '"'
      · simp [hq, psRun]
      · simp only [hq, if_false]
        by_cases hob : q = false ∧ c = '{'
        · simp [hob, psRun]
        · simp only [hob, if_false]
          by_cases hcb : q = false ∧ c = '}'
          · obtain ⟨hq2, hc2⟩ := hcb
            subst hc2
            have hcond : (q = false ∧ ('}' : Char) = '}') := ⟨hq2, rfl⟩
            simp only [hcond, if_true]
            by_cases hd : d - 1 = 0
            · simp only [hd, if_pos]
              cases hp : parse (buf ++ ['}']) with
              | none => simp [psRun, psStep, hp]
              | some m =>
                simp only [psRun, Option.toList, List.foldl_cons, List.foldl_nil,
                  psStep, hp]
                by_cases hlen : batchSize ≤ cur.length + 1
                · simp [psStep, hp, hlen, hd]
                · simp [psStep, hp, hlen, hd]
            · simp [hd, psRun]
          · simp [hcb, psRun]

theorem pipeLineEnd_sim {E : Type} (p : PipeSt E) :
    (pipeLineEnd p).core = scanLineEnd p.core ∧ (pipeLineEnd p).proj = p.proj := by
  rcases p with ⟨buf, d, q, e, mc, bc, cur, dis, er⟩
  simp only [pipeLineEnd, scanLineEnd, PipeSt.core, PipeSt.proj]
  by_cases h : ¬buf = [] ∧ 0 < d
  · simp [h]
  · simp [h]

/-- Shifting the span accumulator out of `scanLineChars`. -/
theorem scanLineChars_acc (cs : List Char) :
    ∀ (s : ScanCore) (acc : List (List Char)),
      cs.foldl (fun a c => ((scanStep a.1 c).1, a.2 ++ (scanStep a.1 c).2.toList))
          (s, acc) =
        ((scanLineChars s cs).1, acc ++ (scanLineChars s cs).2) := by
  induction cs with
  | nil => intro s acc; simp [scanLineChars]
  | cons c cs ih =>
    intro s acc
    simp only [List.foldl_cons]
    rw [ih]
    have h0 : scanLineChars s (c :: cs) =
        ((scanLineChars (scanStep s c).1 cs).1,
          (scanStep s c).2.toList ++ (scanLineChars (scanStep s c).1 cs).2) := by
      simp only [scanLineChars, List.foldl_cons]
      rw [show (cs.foldl (fun a c => ((scanStep a.1 c).1, a.2 ++ (scanStep a.1 c).2.toList))
        ((scanStep s c).1, [] ++ (scanStep s c).2.toList)) =
        (cs.foldl (fun a c => ((scanStep a.1 c).1, a.2 ++ (scanStep a.1 c).2.toList))
        ((scanStep s c).1, (scanStep s c).2.toList)) from by simp]
      rw [ih]
      simp [scanLineChars]
    rw [h0]
    simp

theorem pipeChars_sim {E : Type} (parse : List Char → Option E) (batchSize : Nat) :
    ∀ (cs : List Char) (p : PipeSt E),
      (cs.foldl (pipeChar parse batchSize) p).core = (scanLineChars p.core cs).1 ∧
      (cs.foldl (pipeChar parse batchSize) p).proj =
        psRun parse batchSize (scanLineChars p.core cs).2 p.proj := by
  intro cs
  induction cs with
  | nil => intro p; simp [scanLineChars, psRun]
  | cons c cs ih =>
    intro p
    simp only [List.foldl_cons]
    have hch := pipeChar_sim parse batchSize p c
    have ihe := ih (pipeChar parse batchSize p c)
    have h0 : scanLineChars p.core (c :: cs) =
        ((scanLineChars (scanStep p.core c).1 cs).1,
          (scanStep p.core c).2.toList ++
            (scanLineChars (scanStep p.core c).1 cs).2) := by
      simp only [scanLineChars, List.foldl_cons]
      rw [show (cs.foldl (fun a c => ((scanStep a.1 c).1, a.2 ++ (scanStep a.1 c).2.toList))
        ((scanStep p.core c).1, [] ++ (scanStep p.core c).2.toList)) =
        (cs.foldl (fun a c => ((scanStep a.1 c).1, a.2 ++ (scanStep a.1 c).2.toList))
        ((scanStep p.core c).1, (scanStep p.core c).2.toList)) from by simp]
      rw [scanLineChars_acc]
      simp [scanLineChars]
    rw [h0]
    constructor
    · rw [ihe.1, hch.1]
    · rw [ihe.2, hch.1, hch.2]
      simp only [psRun, List.foldl_append]

theorem pipeLine_sim {E : Type} (parse : List Char → Option E) (batchSize : Nat)
    (cs : List Char) (p : PipeSt E) :
    (pipeLine parse batchSize p cs).core = (scanLine p.core cs).1 ∧
    (pipeLine parse batchSize p cs).proj =
      psRun parse batchSize (scanLine p.core cs).2 p.proj := by
  have h1 := pipeChars_sim parse batchSize cs p
  have h2 := pipeLineEnd_sim (cs.foldl (pipeChar parse batchSize) p)
  refine ⟨?_, ?_⟩
  · rw [show pipeLine parse batchSize p cs =
      pipeLineEnd (cs.foldl (pipeChar parse batchSize) p) from rfl]
    rw [h2.1, h1.1]
    rfl
  · rw [show pipeLine parse batchSize p cs =
      pipeLineEnd (cs.foldl (pipeChar parse batchSize) p) from rfl]
    rw [h2.2, h1.2]
    rfl

/-- Shifting the span accumulator out of `scanAll`'s fold. -/
theorem scanLines_acc (lines : List (List Char)) :
    ∀ (s : ScanCore) (acc : List (List Char)),
      lines.foldl (fun a l => ((scanLine a.1 l).1, a.2 ++ (scanLine a.1 l).2))
          (s, acc) =
        ((lines.foldl (fun a l => ((scanLine a.1 l).1, a.2 ++ (scanLine a.1 l).2))
            (s, [])).1,
          acc ++ (lines.foldl (fun a l => ((scanLine a.1 l).1, a.2 ++ (scanLine a.1 l).2))
            (s, [])).2) := by
  induction lines with
  | nil => intro s acc; simp
  | cons l lines ih =>
    intro s acc
    simp only [List.foldl_cons]
    rw [ih ((scanLine s l).1) (acc ++ (scanLine s l).2),
      ih ((scanLine s l).1) ([] ++ (scanLine s l).2)]
    simp

theorem pipeRun_sim {E : Type} (parse : List Char → Option E) (batchSize : Nat) :
    ∀ (lines : List (List Char)) (p : PipeSt E),
      (lines.foldl (pipeLine parse batchSize) p).core =
        (lines.foldl (fun a l => ((scanLine a.1 l).1, a.2 ++ (scanLine a.1 l).2))
          (p.core, [])).1 ∧
      (lines.foldl (pipeLine parse batchSize) p).proj =
        psRun parse batchSize
          (lines.foldl (fun a l => ((scanLine a.1 l).1, a.2 ++ (scanLine a.1 l).2))
            (p.core, [])).2 p.proj := by
  intro lines
  induction lines with
  | nil => intro p; simp [psRun]
  | cons l lines ih =>
    intro p
    simp only [List.foldl_cons]
    have hln := pipeLine_sim parse batchSize l p
    have ihe := ih (pipeLine parse batchSize p l)
    rw [scanLines_acc]
    constructor
    · rw [ihe.1, hln.1]
    · rw [ihe.2, hln.1, hln.2]
      simp only [psRun, List.foldl_append, List.nil_append]

theorem pipeFinal_sim {E : Type} (p : PipeSt E) :
    (pipeFinal p).core = p.core ∧ (pipeFinal p).proj = psFinal p.proj := by
  rcases p with ⟨buf, d, q, e, mc, bc, cur, dis, er⟩
  simp only [pipeFinal, psFinal, PipeSt.core, PipeSt.proj]
  by_cases h : 0 < cur.length
  · simp [h]
  · simp [h]

/-- The factorization at the heart of the development: the run of
`sendMoviesToSurrealDB` carries the scanner state of the pure scanner, and
its counters, batches and dispatches are exactly the span-processing fold
over the spans the pure scanner emits.  In particular every observable of
the run is a function of the emitted spans alone. -/
theorem sendMovies_factor {E : Type} (parse : List Char → Option E)
    (batchSize : Nat) (lines : List (List Char)) :
    (sendMoviesToSurrealDB parse batchSize lines).core = (scanAll lines).1 ∧
    (sendMoviesToSurrealDB parse batchSize lines).proj =
      psFinal (psRun parse batchSize (scanAll lines).2 psInit) := by
  have hrun := pipeRun_sim parse batchSize lines (pipeInit (E := E))
  have hfin := pipeFinal_sim (lines.foldl (pipeLine parse batchSize) (pipeInit (E := E)))
  have hcore : (pipeInit (E := E)).core = scanInit := rfl
  have hproj : (pipeInit (E := E)).proj = psInit := rfl
  constructor
  · rw [show sendMoviesToSurrealDB parse batchSize lines =
      pipeFinal (lines.foldl (pipeLine parse batchSize) pipeInit) from rfl]
    rw [hfin.1, hrun.1, hcore]
    rfl
  · rw [show sendMoviesToSurrealDB parse batchSize lines =
      pipeFinal (lines.foldl (pipeLine parse batchSize) pipeInit) from rfl]
    rw [hfin.2, hrun.2, hcore, hproj]
    rfl

/-! ## Observables of the pipeline run -/

theorem psFinal_mc {E : Type} (x : PS E) : (psFinal x).mc = x.mc := by
  simp only [psFinal]; split_ifs <;> rfl

theorem psFinal_er {E : Type} (x : PS E) : (psFinal x).er = x.er := by
  simp only [psFinal]; split_ifs <;> rfl

theorem sendMovies_movieCount {E : Type} (parse : List Char → Option E)
    (batchSize : Nat) (lines : List (List Char)) :
    (sendMoviesToSurrealDB parse batchSize lines).movieCount =
      (((scanAll lines).2).filterMap parse).length := by
  have hf := (sendMovies_factor parse batchSize lines).2
  have hm := congrArg PS.mc hf
  have h1 := psRun_mc parse batchSize (scanAll lines).2 psInit
  rw [show (sendMoviesToSurrealDB parse batchSize lines).movieCount =
    ((sendMoviesToSurrealDB parse batchSize lines).proj).mc from rfl]
  rw [hm, psFinal_mc, h1]
  simp [psInit]

theorem sendMovies_errors {E : Type} (parse : List Char → Option E)
    (batchSize : Nat) (lines : List (List Char)) :
    (sendMoviesToSurrealDB parse batchSize lines).errors =
      ((scanAll lines).2).countP (fun sp => (parse sp).isNone) := by
  have hf := (sendMovies_factor parse batchSize lines).2
  have hm := congrArg PS.er hf
  have h1 := psRun_er parse batchSize (scanAll lines).2 psInit
  rw [show (sendMoviesToSurrealDB parse batchSize lines).errors =
    ((sendMoviesToSurrealDB parse batchSize lines).proj).er from rfl]
  rw [hm, psFinal_er, h1]
  simp [psInit]

theorem sendMovies_batchCount {E : Type} (parse : List Char → Option E)
    (batchSize : Nat) (lines : List (List Char)) :
    (sendMoviesToSurrealDB parse batchSize lines).batchCount =
      (sendMoviesToSurrealDB parse batchSize lines).dispatched.length := by
  have hf := (sendMovies_factor parse batchSize lines).2
  have hbc := congrArg PS.bc hf
  have hdis := congrArg PS.dis hf
  have h1 := psRun_bc_dis parse batchSize (scanAll lines).2 psInit (by simp [psInit])
  rw [show (sendMoviesToSurrealDB parse batchSize lines).batchCount =
    ((sendMoviesToSurrealDB parse batchSize lines).proj).bc from rfl]
  rw [show (sendMoviesToSurrealDB parse batchSize lines).dispatched =
    ((sendMoviesToSurrealDB parse batchSize lines).proj).dis from rfl]
  rw [hbc, hdis]
  simp only [psFinal]
  split_ifs with h
  · simp [h1]
  · exact h1

theorem sendMovies_dispatched {E : Type} (parse : List Char → Option E)
    {batchSize : Nat} (hB : 0 < batchSize) (lines : List (List Char)) :
    (sendMoviesToSurrealDB parse batchSize lines).dispatched =
      finalizeChunks batchSize (((scanAll lines).2).filterMap parse) := by
  have hf := (sendMovies_factor parse batchSize lines).2
  have hdis := congrArg PS.dis hf
  have hch := psRun_chunk parse hB (scanAll lines).2 psInit (by simpa [psInit] using hB)
  simp only [psInit, List.nil_append] at hch
  have hpf : ∀ x : PS E, (psFinal x).dis =
      x.dis ++ (if 0 < x.cur.length then [x.cur] else []) := by
    intro x
    simp only [psFinal]
    split_ifs <;> simp
  rw [show (sendMoviesToSurrealDB parse batchSize lines).dispatched =
    ((sendMoviesToSurrealDB parse batchSize lines).proj).dis from rfl]
  rw [hdis, hpf]
  simp only [psInit]
  rw [hch.1, hch.2]
  rfl

/-- Ceiling division, written as the source computes batch counts. -/
theorem ceil_div_eq {batchSize : Nat} (hB : 0 < batchSize) (M : Nat) :
    (M + batchSize - 1) / batchSize =
      M / batchSize + (if M % batchSize = 0 then 0 else 1) := by
  have hqr := Nat.div_add_mod M batchSize
  have hr : M % batchSize < batchSize := Nat.mod_lt _ hB
  by_cases h0 : M % batchSize = 0
  · rw [if_pos h0]
    have hle : (M / batchSize) * batchSize ≤ M + batchSize - 1 := by
      have he : (M / batchSize) * batchSize = batchSize * (M / batchSize) := by ring
      omega
    have hlt : M + batchSize - 1 < (M / batchSize + 1) * batchSize := by
      have he : (M / batchSize + 1) * batchSize =
          batchSize * (M / batchSize) + batchSize := by ring
      omega
    rw [Nat.div_eq_of_lt_le hle hlt]
    simp
  · rw [if_neg h0]
    have hle : (M / batchSize + 1) * batchSize ≤ M + batchSize - 1 := by
      have he : (M / batchSize + 1) * batchSize =
          batchSize * (M / batchSize) + batchSize := by ring
      omega
    have hlt : M + batchSize - 1 < (M / batchSize + 1 + 1) * batchSize := by
      have he : (M / batchSize + 1 + 1) * batchSize =
          batchSize * (M / batchSize) + batchSize + batchSize := by ring
      omega
    rw [Nat.div_eq_of_lt_le hle hlt]

theorem finalizeChunks_flatten {α : Type} (batchSize : Nat) (l : List α) :
    (finalizeChunks batchSize l).flatten = l := by
  have hj := chunkAcc_join batchSize l []
  simp only [finalizeChunks]
  split_ifs with h
  · simp only [List.flatten_append, List.flatten_cons, List.flatten_nil,
      List.append_nil]
    simpa using hj
  · have h2 : (chunkAcc batchSize [] l).2 = [] := by
      cases hc : (chunkAcc batchSize [] l).2 with
      | nil => rfl
      | cons y ys => rw [hc] at h; simp at h
    rw [h2] at hj
    simpa using hj

/-! ## Lemmas on `escapeStr` -/

/-- The per-character effect of the whole six-stage replacement chain. -/
def escChar (c : Char) : List Char :=
  if c = '\\' then ['\\', '\\']
  else if c = '\x27' then ['\\', '\x27']
  else if c = '\n' then ['\\', 'n']
  else if c = '\r' then ['\\', 'r']
  else if c = '\t' then ['\\', 't']
  else if c = '\x0c' then ['\\', 'f']
  else [c]

theorem replaceChar_append (pat : Char) (rep : List Char) (a b : List Char) :
    replaceChar pat rep (a ++ b) = replaceChar pat rep a ++ replaceChar pat rep b := by
  simp [replaceChar]

theorem escapeStrChars_append (a b : List Char) :
    escapeStrChars (a ++ b) = escapeStrChars a ++ escapeStrChars b := by
  simp only [escapeStrChars, replaceChar_append]

theorem escapeStrChars_singleton (c : Char) : escapeStrChars [c] = escChar c := by
  by_cases h1 : c = '\\'
  · subst h1; rfl
  · by_cases h2 : c = '\x27'
    · subst h2; rfl
    · by_cases h3 : c = '\n'
      · subst h3; rfl
      · by_cases h4 : c = '\r'
        · subst h4; rfl
        · by_cases h5 : c = '\t'
          · subst h5; rfl
          · by_cases h6 : c = '\x0c'
            · subst h6; rfl
            · simp [escapeStrChars, replaceChar, escChar, h1, h2, h3, h4, h5, h6]

theorem escapeStrChars_eq_flatMap (s : List Char) :
    escapeStrChars s = s.flatMap escChar := by
  induction s with
  | nil => rfl
  | cons c cs ih =>
    rw [show (c :: cs) = [c] ++ cs from rfl, escapeStrChars_append,
      escapeStrChars_singleton]
    simp [ih]

theorem escChar_ne_nil (c : Char) : escChar c ≠ [] := by
  simp only [escChar]
  split_ifs <;> simp

theorem escChar_head_ne_quote (c : Char) :
    ∀ h, (escChar c).head? = some h → h ≠ '\x27' := by
  intro h hh
  simp only [escChar] at hh
  split_ifs at hh with h1 h2 h3 h4 h5 h6 <;> simp at hh <;> subst hh
  · decide
  · decide
  · decide
  · decide
  · decide
  · decide
  · exact h2

theorem flatMap_escChar_head_ne_quote (s : List Char) :
    ∀ h, (s.flatMap escChar).head? = some h → h ≠ '\x27' := by
  cases s with
  | nil => intro h hh; simp at hh
  | cons c cs =>
    intro h hh
    rw [List.flatMap_cons] at hh
    cases he : escChar c with
    | nil => exact absurd he (escChar_ne_nil c)
    | cons e es =>
      rw [he] at hh
      simp only [List.cons_append, List.head?_cons, Option.some.injEq] at hh
      subst hh
      have := escChar_head_ne_quote c
      rw [he] at this
      exact this e (by simp)

/-- The escaped-quote relation: a quote may only directly follow a backslash. -/
def quoteRel (a b : Char) : Prop := b = '\x27' → a = '\\'

theorem escChar_chain (c : Char) : List.Chain' quoteRel (escChar c) := by
  simp only [escChar]
  split_ifs <;> simp [quoteRel]

theorem flatMap_escChar_chain (s : List Char) :
    List.Chain' quoteRel (s.flatMap escChar) := by
  induction s with
  | nil => simp
  | cons c cs ih =>
    rw [List.flatMap_cons, List.chain'_append]
    refine ⟨escChar_chain c, ih, ?_⟩
    intro x _ y hy
    intro hq
    exact absurd hq (flatMap_escChar_head_ne_quote cs y hy)

theorem flatMap_escChar_no_control (s : List Char) :
    ∀ c ∈ s.flatMap escChar, c ≠ '\n' ∧ c ≠ '\r' ∧ c ≠ '\t' ∧ c ≠ '\x0c' := by
  intro c hc
  rw [List.mem_flatMap] at hc
  obtain ⟨a, _, hca⟩ := hc
  simp only [escChar] at hca
  split_ifs at hca with h1 h2 h3 h4 h5 h6
  · simp at hca
    subst hca
    refine ⟨by decide, by decide, by decide, by decide⟩
  · simp at hca
    rcases hca with h | h <;> subst h <;> refine ⟨by decide, by decide, by decide, by decide⟩
  · simp at hca
    rcases hca with h | h <;> subst h <;> refine ⟨by decide, by decide, by decide, by decide⟩
  · simp at hca
    rcases hca with h | h <;> subst h <;> refine ⟨by decide, by decide, by decide, by decide⟩
  · simp at hca
    rcases hca with h | h <;> subst h <;> refine ⟨by decide, by decide, by decide, by decide⟩
  · simp at hca
    rcases hca with h | h <;> subst h <;> refine ⟨by decide, by decide, by decide, by decide⟩
  · simp at hca
    subst hca
    exact ⟨h3, h4, h5, h6⟩

/-! ## Concrete decoders used to instantiate the pipeline in examples

`JSON.parse` is external; these two total stand-ins let concrete runs be
evaluated: one accepts every span (the entity is the span text), the other
rejects exactly the span `{@}`. -/

def parseAlways : List Char → Option (List Char) := fun s => some s

def parseBadAt : List Char → Option (List Char) :=
  fun s => if s = ("\x7b@\x7d").toList then none else some s

/-- C1: the claim says every emitted span is the trimmed buffer holding
exactly one balanced object, and in particular that two objects closing on
the same input line yield two spans, each with its own object's text.  The
scanner of `sendMoviesToSurrealDB` satisfies this (second conjunct), but
`fixJsonFile` appends whole lines to its buffer before scanning, so on the
line `{"a":1}{"b":2}` it writes a first span containing BOTH objects and a
second, empty span — its output is not a proper JSON array, contradicting
its own documentation.  This theorem evaluates both scanners on that line. -/
theorem c1_two_objects_one_line_eval :
    (fixJsonFile [("\x7b\"a\":1\x7d\x7b\"b\":2\x7d").toList]).output =
      [("\x7b\"a\":1\x7d\x7b\"b\":2\x7d").toList, []] ∧
    (scanAll [("\x7b\"a\":1\x7d\x7b\"b\":2\x7d").toList]).2 =
      [("\x7b\"a\":1\x7d").toList, ("\x7b\"b\":2\x7d").toList] := by
  constructor
  · decide
  · decide

/-- C2: an escaped double quote does not toggle `inQuotes`.  In any scanner
state with no pending escape, reading a backslash and then a double quote
leaves the quote flag and the depth unchanged, clears the escape flag, and
emits nothing; consequently the spec's example object containing an escaped
quote is recovered as a single span equal to the whole object, with the
scanner back in its initial state. -/
theorem c2_escaped_quote_single_span (s : ScanCore) (h : s.escapeNext = false) :
    ((scanStep (scanStep s '\\').1 '"').1).inQuotes = s.inQuotes ∧
    ((scanStep (scanStep s '\\').1 '"').1).depth = s.depth ∧
    ((scanStep (scanStep s '\\').1 '"').1).escapeNext = false ∧
    (scanStep s '\\').2 = none ∧
    (scanStep (scanStep s '\\').1 '"').2 = none ∧
    (scanAll [("\x7b\"title\":\"A \\\"Great\\\" Movie\"\x7d").toList]).2 =
      [("\x7b\"title\":\"A \\\"Great\\\" Movie\"\x7d").toList] ∧
    (scanAll [("\x7b\"title\":\"A \\\"Great\\\" Movie\"\x7d").toList]).1 = scanInit := by
  rcases s with ⟨buf, d, q, e⟩
  simp only at h
  subst h
  refine ⟨?_, ?_, ?_, ?_, ?_, by decide, by decide⟩ <;> simp [scanStep]

/-- Witness for C2 at the initial scanner state. -/
theorem c2_escaped_quote_single_span_witness :
    scanInit.escapeNext = false ∧
    ((scanStep (scanStep scanInit '\\').1 '"').1).inQuotes = scanInit.inQuotes ∧
    (scanAll [("\x7b\"title\":\"A \\\"Great\\\" Movie\"\x7d").toList]).2 =
      [("\x7b\"title\":\"A \\\"Great\\\" Movie\"\x7d").toList] :=
  ⟨rfl, (c2_escaped_quote_single_span scanInit rfl).1,
    (c2_escaped_quote_single_span scanInit rfl).2.2.2.2.2.1⟩

/-- C4 counterexample: the claim says a stream ending at nonzero depth (or
one whose depth goes negative) makes the Scanner fail with a StructuralError
and halts the pipeline.  The code has no such failure path: on the truncated
input `{"a":1}{"b":` it completes normally — the open batch is still
dispatched after the end of the stream, the report equals that of the
untruncated input `{"a":1}`, and no error of any kind is recorded; a lone
`}` simply drives the depth to `-1` and the run reports `(0, 0)`. -/
theorem c4_counterexample :
    (sendMoviesToSurrealDB parseAlways 2 [("\x7b\"a\":1\x7d\x7b\"b\":").toList]).depth = 1 ∧
    (sendMoviesToSurrealDB parseAlways 2 [("\x7b\"a\":1\x7d\x7b\"b\":").toList]).dispatched =
      [[("\x7b\"a\":1\x7d").toList]] ∧
    (sendMoviesToSurrealDB parseAlways 2 [("\x7b\"a\":1\x7d\x7b\"b\":").toList]).errors = 0 ∧
    finalReport (sendMoviesToSurrealDB parseAlways 2 [("\x7b\"a\":1\x7d\x7b\"b\":").toList]) =
      finalReport (sendMoviesToSurrealDB parseAlways 2 [("\x7b\"a\":1\x7d").toList]) ∧
    (sendMoviesToSurrealDB parseAlways 2 [("\x7d").toList]).depth = -1 ∧
    finalReport (sendMoviesToSurrealDB parseAlways 2 [("\x7d").toList]) = (0, 0) := by
  refine ⟨by decide, by decide, by decide, by decide, by decide, by decide⟩

/-- C4 (amended): when the stream ends while an object is still open, no
error is raised and the truncated tail is silently discarded: appending a
final line that completes no object leaves every decode/batch observable of
the run — counts, errors, dispatched batches — exactly as without it, so the
records fully recovered before the truncation point are still reported and
no partial object is ever decoded or dispatched. -/
theorem c4_truncated_tail_silently_dropped {E : Type}
    (parse : List Char → Option E) (batchSize : Nat)
    (lines : List (List Char)) (l : List Char)
    (h : (scanLine (scanAll lines).1 l).2 = []) :
    (sendMoviesToSurrealDB parse batchSize (lines ++ [l])).proj =
      (sendMoviesToSurrealDB parse batchSize lines).proj := by
  have hs : (scanAll (lines ++ [l])).2 = (scanAll lines).2 := by
    have he : scanAll (lines ++ [l]) =
        ((scanLine (scanAll lines).1 l).1,
          (scanAll lines).2 ++ (scanLine (scanAll lines).1 l).2) := by
      simp [scanAll, List.foldl_append]
    rw [he, h]
    simp
  have h1 := (sendMovies_factor parse batchSize (lines ++ [l])).2
  have h2 := (sendMovies_factor parse batchSize lines).2
  rw [h1, h2, hs]

/-- Witness for C4 (amended): truncating `{"b":` after a complete object. -/
theorem c4_truncated_tail_silently_dropped_witness :
    (scanLine (scanAll [("\x7b\"a\":1\x7d").toList]).1 (("\x7b\"b\":").toList)).2 = [] ∧
    (sendMoviesToSurrealDB parseAlways 2
        ([("\x7b\"a\":1\x7d").toList] ++ [("\x7b\"b\":").toList])).proj =
      (sendMoviesToSurrealDB parseAlways 2 [("\x7b\"a\":1\x7d").toList]).proj :=
  ⟨by decide,
    c4_truncated_tail_silently_dropped parseAlways 2 [("\x7b\"a\":1\x7d").toList]
      (("\x7b\"b\":").toList) (by decide)⟩

/-- C3: for a run that decodes `M` entities with batch size `B > 0`, exactly
`⌈M / B⌉` batches are dispatched; every batch except possibly the last has
size `B`; the last batch has size `M mod B` when that is nonzero and `B`
when `M` is a positive multiple of `B` (all batches then have size `B`); a
non-empty open batch at end of stream is dispatched as the final batch and
an empty one is discarded (both contained in the count being `⌈M / B⌉`);
`M = 0` dispatches no batch at all. -/
theorem c3_batch_sizing {E : Type} (parse : List Char → Option E)
    {batchSize : Nat} (hB : 0 < batchSize) (lines : List (List Char)) (M : Nat)
    (hM : (sendMoviesToSurrealDB parse batchSize lines).movieCount = M) :
    (sendMoviesToSurrealDB parse batchSize lines).dispatched.length =
      (M + batchSize - 1) / batchSize ∧
    (∀ b ∈ (sendMoviesToSurrealDB parse batchSize lines).dispatched.dropLast,
      b.length = batchSize) ∧
    (M % batchSize ≠ 0 →
      ((sendMoviesToSurrealDB parse batchSize lines).dispatched.getLast?).map
        List.length = some (M % batchSize)) ∧
    (M % batchSize = 0 →
      ∀ b ∈ (sendMoviesToSurrealDB parse batchSize lines).dispatched,
        b.length = batchSize) ∧
    (M = 0 → (sendMoviesToSurrealDB parse batchSize lines).dispatched = []) := by
  subst hM
  have hMd := sendMovies_movieCount parse batchSize lines
  have hd := sendMovies_dispatched parse hB lines
  rw [hd, hMd]
  have hlen := chunkAcc_lengths hB (((scanAll lines).2).filterMap parse) []
    (by simpa using hB)
  simp only [List.length_nil, Nat.zero_add] at hlen
  have hmem := chunkAcc_closed_len hB (((scanAll lines).2).filterMap parse) []
    (by simpa using hB)
  by_cases h0 : (((scanAll lines).2).filterMap parse).length % batchSize = 0
  · have hop : (chunkAcc batchSize [] (((scanAll lines).2).filterMap parse)).2.length = 0 := by
      rw [hlen.2, h0]
    have hfin : finalizeChunks batchSize (((scanAll lines).2).filterMap parse) =
        (chunkAcc batchSize [] (((scanAll lines).2).filterMap parse)).1 := by
      simp [finalizeChunks, hop]
    rw [hfin]
    refine ⟨?_, ?_, ?_, ?_, ?_⟩
    · rw [hlen.1, ceil_div_eq hB, if_pos h0]
      omega
    · intro b hb
      exact hmem b ((List.dropLast_sublist _).subset hb)
    · intro hne
      exact absurd h0 hne
    · intro _ b hb
      exact hmem b hb
    · intro hz
      rw [List.length_eq_zero.mp hz]
      simp [chunkAcc]
  · have hop : 0 < (chunkAcc batchSize [] (((scanAll lines).2).filterMap parse)).2.length := by
      rw [hlen.2]
      omega
    have hfin : finalizeChunks batchSize (((scanAll lines).2).filterMap parse) =
        (chunkAcc batchSize [] (((scanAll lines).2).filterMap parse)).1 ++
          [(chunkAcc batchSize [] (((scanAll lines).2).filterMap parse)).2] := by
      simp [finalizeChunks, hop]
    rw [hfin]
    refine ⟨?_, ?_, ?_, ?_, ?_⟩
    · rw [List.length_append, List.length_singleton, hlen.1, ceil_div_eq hB, if_neg h0]
    · intro b hb
      rw [List.dropLast_concat] at hb
      exact hmem b hb
    · intro _
      rw [List.getLast?_concat]
      simp [hlen.2]
    · intro h0'
      exact absurd h0' h0
    · intro hz
      exfalso
      apply h0
      rw [hz]
      simp

/-- Witness for C3 on three objects with batch size two: two batches, the
first full, the last of size `3 mod 2 = 1`. -/
theorem c3_batch_sizing_witness :
    (0 < 2) ∧
    (sendMoviesToSurrealDB parseAlways 2
      [("\x7ba\x7d\x7bb\x7d\x7bc\x7d").toList]).movieCount = 3 ∧
    ((sendMoviesToSurrealDB parseAlways 2
        [("\x7ba\x7d\x7bb\x7d\x7bc\x7d").toList]).dispatched.length = (3 + 2 - 1) / 2 ∧
      (∀ b ∈ (sendMoviesToSurrealDB parseAlways 2
          [("\x7ba\x7d\x7bb\x7d\x7bc\x7d").toList]).dispatched.dropLast,
        b.length = 2) ∧
      (3 % 2 ≠ 0 →
        ((sendMoviesToSurrealDB parseAlways 2
            [("\x7ba\x7d\x7bb\x7d\x7bc\x7d").toList]).dispatched.getLast?).map
          List.length = some (3 % 2)) ∧
      (3 % 2 = 0 →
        ∀ b ∈ (sendMoviesToSurrealDB parseAlways 2
            [("\x7ba\x7d\x7bb\x7d\x7bc\x7d").toList]).dispatched, b.length = 2) ∧
      (3 = 0 → (sendMoviesToSurrealDB parseAlways 2
        [("\x7ba\x7d\x7bb\x7d\x7bc\x7d").toList]).dispatched = [])) :=
  ⟨by decide, by decide,
    c3_batch_sizing parseAlways (by decide)
      [("\x7ba\x7d\x7bb\x7d\x7bc\x7d").toList] 3 (by decide)⟩

/-- C5: a recovered span that fails to decode is isolated: with three spans
of which the middle one is rejected by the decoder, the run counts two
decoded entities and one decode error, and the dispatched batches contain
exactly the two valid entities in order — the malformed object prevents
neither neighbour from being decoded and batched, and the stream is never
aborted (the run is a total function producing its normal result). -/
theorem c5_decode_error_isolated {E : Type} (parse : List Char → Option E)
    {batchSize : Nat} (hB : 0 < batchSize) (lines : List (List Char))
    (spA spM spC : List Char) (a c : E)
    (hspans : (scanAll lines).2 = [spA, spM, spC])
    (hA : parse spA = some a) (hM : parse spM = none) (hC : parse spC = some c) :
    (sendMoviesToSurrealDB parse batchSize lines).movieCount = 2 ∧
    (sendMoviesToSurrealDB parse batchSize lines).errors = 1 ∧
    (sendMoviesToSurrealDB parse batchSize lines).dispatched.flatten = [a, c] := by
  have h1 := sendMovies_movieCount parse batchSize lines
  have h2 := sendMovies_errors parse batchSize lines
  have h3 := sendMovies_dispatched parse hB lines
  rw [hspans] at h1 h2 h3
  simp only [List.filterMap_cons, hA, hM, hC, List.filterMap_nil] at h1 h3
  simp only [List.countP_cons, List.countP_nil, hA, hM, hC] at h2
  refine ⟨by simpa using h1, by simpa using h2, ?_⟩
  rw [h3, finalizeChunks_flatten]

/-- Witness for C5: a rejected `{@}` between two accepted objects. -/
theorem c5_decode_error_isolated_witness :
    parseBadAt (("\x7b@\x7d").toList) = none ∧
    ((sendMoviesToSurrealDB parseBadAt 2
        [("\x7ba\x7d\x7b@\x7d\x7bc\x7d").toList]).movieCount = 2 ∧
      (sendMoviesToSurrealDB parseBadAt 2
        [("\x7ba\x7d\x7b@\x7d\x7bc\x7d").toList]).errors = 1 ∧
      (sendMoviesToSurrealDB parseBadAt 2
          [("\x7ba\x7d\x7b@\x7d\x7bc\x7d").toList]).dispatched.flatten =
        [("\x7ba\x7d").toList, ("\x7bc\x7d").toList]) :=
  ⟨by decide,
    c5_decode_error_isolated parseBadAt (by decide)
      [("\x7ba\x7d\x7b@\x7d\x7bc\x7d").toList]
      (("\x7ba\x7d").toList) (("\x7b@\x7d").toList) (("\x7bc\x7d").toList)
      (("\x7ba\x7d").toList) (("\x7bc\x7d").toList)
      (by decide) (by decide) (by decide) (by decide)⟩

/-- C9 counterexample: the claim says the run's result reports the exact
count of entities skipped by decode failure.  The run's only reported result
is the pair (records created, batches); two inputs, one clean and one with a
malformed `{@}` object inserted, produce the *same* report while their
decode-failure counts differ (0 versus 1), so the reported result carries no
skip count. -/
theorem c9_counterexample :
    finalReport (sendMoviesToSurrealDB parseBadAt 2 [("\x7ba\x7d\x7bc\x7d").toList]) =
      finalReport (sendMoviesToSurrealDB parseBadAt 2
        [("\x7ba\x7d\x7b@\x7d\x7bc\x7d").toList]) ∧
    (sendMoviesToSurrealDB parseBadAt 2 [("\x7ba\x7d\x7bc\x7d").toList]).errors = 0 ∧
    (sendMoviesToSurrealDB parseBadAt 2
      [("\x7ba\x7d\x7b@\x7d\x7bc\x7d").toList]).errors = 1 := by
  refine ⟨by decide, by decide, by decide⟩

/-- C9 (amended): on every run the reported result is exactly the pair
(entities decoded, batches dispatched): the decoded count is the number of
emitted spans the decoder accepts and the batch count is the number of
dispatched batches.  Decode failures are logged per object but not counted
in the reported result, and the sink is modelled as always committing (a
fatal sink error in the source skips the report entirely). -/
theorem c9_reported_counts {E : Type} (parse : List Char → Option E)
    (batchSize : Nat) (lines : List (List Char)) :
    finalReport (sendMoviesToSurrealDB parse batchSize lines) =
      ((((scanAll lines).2).filterMap parse).length,
        (sendMoviesToSurrealDB parse batchSize lines).dispatched.length) := by
  simp only [finalReport, sendMovies_movieCount, sendMovies_batchCount]

/-! ## Claims on the sink and the decoder -/

theorem createAll_spec (fails : FmtMovie → Bool) :
    ∀ (ms : List FmtMovie) (db : SurrealDB),
      (∀ db', createAll fails db ms = Sum.inl db' →
        db'.committed = db.committed ∧ ∃ m ∈ ms, fails m = true) ∧
      (∀ db', createAll fails db ms = Sum.inr db' →
        db'.committed = db.committed ∧ db'.pending = db.pending ++ ms ∧
        ∀ m ∈ ms, fails m = false) := by
  intro ms
  induction ms with
  | nil =>
    intro db
    constructor
    · intro db' h
      simp [createAll] at h
    · intro db' h
      simp only [createAll, Sum.inr.injEq] at h
      subst h
      simp
  | cons m ms ih =>
    intro db
    constructor
    · intro db' h
      simp only [createAll] at h
      by_cases hf : fails m
      · rw [if_pos hf] at h
        simp only [Sum.inl.injEq] at h
        subst h
        exact ⟨rfl, ⟨m, by simp, hf⟩⟩
      · rw [if_neg hf] at h
        have h2 := (ih { db with pending := db.pending ++ [m] }).1 db' h
        refine ⟨h2.1, ?_⟩
        obtain ⟨m', hm', hfm'⟩ := h2.2
        exact ⟨m', by simp [hm'], hfm'⟩
    · intro db' h
      simp only [createAll] at h
      by_cases hf : fails m
      · rw [if_pos hf] at h
        simp at h
      · rw [if_neg hf] at h
        have h2 := (ih { db with pending := db.pending ++ [m] }).2 db' h
        refine ⟨h2.1, ?_, ?_⟩
        · rw [h2.2.1]
          simp
        · intro m'' hm''
          rcases List.mem_cons.mp hm'' with h1 | h1
          · subst h1
            simpa using hf
          · exact h2.2.2 m'' h1

/-- C6: one `sendBatchToSurrealDB` call is all-or-nothing for its batch.  If
any `create` in the batch fails, the transaction is cancelled and rethrown:
the error carries a session whose committed rows are exactly those committed
before the call (zero entities from this batch, prior batches untouched) and
whose transaction buffer is empty.  If no `create` fails, the commit appends
exactly the batch's formatted movies to the committed rows. -/
theorem c6_commit_atomicity (fails : FmtMovie → Bool) (db : SurrealDB)
    (movies : List Movie) :
    (∀ db', sendBatchToSurrealDB fails db movies = Except.error db' →
      db'.committed = db.committed ∧ db'.pending = [] ∧
      ∃ m ∈ movies, fails (formatMovieForDB m) = true) ∧
    (∀ db', sendBatchToSurrealDB fails db movies = Except.ok db' →
      db'.committed = db.committed ++ movies.map formatMovieForDB ∧
      db'.pending = [] ∧
      ∀ m ∈ movies, fails (formatMovieForDB m) = false) := by
  have hc := createAll_spec fails (movies.map formatMovieForDB) (dbBegin db)
  constructor
  · intro db' h
    simp only [sendBatchToSurrealDB] at h
    cases hca : createAll fails (dbBegin db) (movies.map formatMovieForDB) with
    | inl db2 =>
      rw [hca] at h
      simp only [Except.error.injEq] at h
      subst h
      have h2 := hc.1 db2 hca
      refine ⟨?_, rfl, ?_⟩
      · simpa [dbCancel, dbBegin] using h2.1
      · obtain ⟨fm, hfm, hff⟩ := h2.2
        rw [List.mem_map] at hfm
        obtain ⟨m, hm, rfl⟩ := hfm
        exact ⟨m, hm, hff⟩
    | inr db2 =>
      rw [hca] at h
      simp at h
  · intro db' h
    simp only [sendBatchToSurrealDB] at h
    cases hca : createAll fails (dbBegin db) (movies.map formatMovieForDB) with
    | inl db2 =>
      rw [hca] at h
      simp at h
    | inr db2 =>
      rw [hca] at h
      simp only [Except.ok.injEq] at h
      subst h
      have h2 := hc.2 db2 hca
      refine ⟨?_, rfl, ?_⟩
      · show db2.committed ++ db2.pending = db.committed ++ movies.map formatMovieForDB
        rw [h2.1, h2.2.1]
        simp [dbBegin]
      · intro m hm
        exact h2.2.2 (formatMovieForDB m) (List.mem_map_of_mem _ hm)

/-- Concrete movies and session for the sink witness: the batch's second
movie triggers a create failure; one row is already committed. -/
def movieBare : Movie :=
  ⟨7, none, none, none, none, none, none, none, none, none, none, [], none⟩

def movieTitled : Movie :=
  ⟨9, some "t", none, none, none, none, none, none, none, none, none, [], none⟩

def failsOnNine : FmtMovie → Bool := fun fm => fm.id = 9

def dbPrior : SurrealDB := ⟨[formatMovieForDB movieBare], []⟩

/-- Witness for C6: a batch failing on its second movie commits nothing from
the batch and leaves the previously committed row in place. -/
theorem c6_commit_atomicity_witness :
    sendBatchToSurrealDB failsOnNine dbPrior [movieBare, movieTitled] =
      Except.error ⟨dbPrior.committed, []⟩ ∧
    (⟨dbPrior.committed, []⟩ : SurrealDB).committed = dbPrior.committed ∧
    (∃ m ∈ [movieBare, movieTitled], failsOnNine (formatMovieForDB m) = true) := by
  have heq : sendBatchToSurrealDB failsOnNine dbPrior [movieBare, movieTitled] =
      Except.error ⟨dbPrior.committed, []⟩ := rfl
  have h := (c6_commit_atomicity failsOnNine dbPrior [movieBare, movieTitled]).1
    ⟨dbPrior.committed, []⟩ heq
  exact ⟨heq, h.1, h.2.2⟩

/-- C7 (amended): the decoder's default policy, as the code implements it:
an absent or falsy numeric field becomes `0`; absent or falsy `title`,
`overview` and `tagline` become `""`, but the absent or falsy poster path
becomes `"/empty"` (not `""`); an absent or falsy date becomes the epoch
sentinel `0001-01-01`; and an empty genre list becomes the one-element
sentinel list `[genre:0]`, never the empty list. -/
theorem c7_field_defaults (m : Movie) :
    ((m.budget = none ∨ m.budget = some 0) → (formatMovieForDB m).budget = 0) ∧
    ((m.revenue = none ∨ m.revenue = some 0) → (formatMovieForDB m).revenue = 0) ∧
    ((m.runtime = none ∨ m.runtime = some 0) → (formatMovieForDB m).runtime = 0) ∧
    ((m.vote_average = none ∨ m.vote_average = some 0) →
      (formatMovieForDB m).vote_average = 0) ∧
    ((m.title = none ∨ m.title = some "") → (formatMovieForDB m).title = "") ∧
    ((m.overview = none ∨ m.overview = some "") →
      (formatMovieForDB m).overview = "") ∧
    ((m.tagline = none ∨ m.tagline = some "") →
      (formatMovieForDB m).tagline = "") ∧
    ((m.poster_path = none ∨ m.poster_path = some "") →
      (formatMovieForDB m).poster = "/empty") ∧
    ((m.release_date = none ∨ m.release_date = some "") →
      (formatMovieForDB m).release_date = "0001-01-01") ∧
    (m.genres = [] → (formatMovieForDB m).genre = ["genre:0"]) := by
  refine ⟨?_, ?_, ?_, ?_, ?_, ?_, ?_, ?_, ?_, ?_⟩
  · rintro (h | h) <;> simp [formatMovieForDB, jsOrInt, h]
  · rintro (h | h) <;> simp [formatMovieForDB, jsOrInt, h]
  · rintro (h | h) <;> simp [formatMovieForDB, jsOrInt, h]
  · rintro (h | h) <;> simp [formatMovieForDB, jsOrInt, h]
  · rintro (h | h) <;> simp [formatMovieForDB, jsOrStr, h]
  · rintro (h | h) <;> simp [formatMovieForDB, jsOrStr, h]
  · rintro (h | h) <;> simp [formatMovieForDB, jsOrStr, h]
  · rintro (h | h) <;> simp [formatMovieForDB, jsOrStr, h]
  · rintro (h | h) <;> simp [formatMovieForDB, h]
  · intro h
    simp [formatMovieForDB, h]

/-- C7 counterexample: `poster_path` is an absent optional string field of
`movieBare`, yet it decodes to `"/empty"`, not to `""` as the claim's
uniform empty-string default asserts. -/
theorem c7_counterexample :
    movieBare.poster_path = none ∧
    (formatMovieForDB movieBare).poster = "/empty" ∧
    ¬(formatMovieForDB movieBare).poster = "" := by
  refine ⟨rfl, by decide, by decide⟩

/-- Witness for C7 on the all-absent movie. -/
theorem c7_field_defaults_witness :
    (formatMovieForDB movieBare).budget = 0 ∧
    (formatMovieForDB movieBare).title = "" ∧
    (formatMovieForDB movieBare).release_date = "0001-01-01" ∧
    (formatMovieForDB movieBare).genre = ["genre:0"] :=
  ⟨(c7_field_defaults movieBare).1 (Or.inl rfl),
    (c7_field_defaults movieBare).2.2.2.2.1 (Or.inl rfl),
    (c7_field_defaults movieBare).2.2.2.2.2.2.2.2.1 (Or.inl rfl),
    (c7_field_defaults movieBare).2.2.2.2.2.2.2.2.2 rfl⟩

/-- C8 counterexample: with `belongs_to_collection` and `original_language`
absent, the decoder sets `collection` to `null` (no sentinel ForeignKey at
all) and `language` to `language:en` — neither field receives the `kind:0`
sentinel the claim asserts. -/
theorem c8_counterexample :
    movieBare.belongs_to_collection = none ∧
    (formatMovieForDB movieBare).collection = none ∧
    ¬(formatMovieForDB movieBare).collection = some "collection:0" ∧
    (formatMovieForDB movieBare).language = "language:en" ∧
    ¬(formatMovieForDB movieBare).language = "language:0" := by
  refine ⟨rfl, by decide, by decide, by decide, by decide⟩

/-- C8 (amended): single-reference defaults as implemented: an absent
collection reference becomes `null` (and a present one the string-encoded
reference `collection:<id>`); an absent or falsy language becomes the fixed
reference `language:en`, not a `kind:0` sentinel. -/
theorem c8_single_reference_defaults (m : Movie) :
    (m.belongs_to_collection = none → (formatMovieForDB m).collection = none) ∧
    (∀ c, m.belongs_to_collection = some c →
      (formatMovieForDB m).collection = some ("collection:" ++ toString c.id)) ∧
    ((m.original_language = none ∨ m.original_language = some "") →
      (formatMovieForDB m).language = "language:en") := by
  refine ⟨?_, ?_, ?_⟩
  · intro h
    simp [formatMovieForDB, h]
  · intro c h
    simp [formatMovieForDB, h]
  · rintro (h | h) <;> simp [formatMovieForDB, jsOrStr, h]

/-- Witness for C8 on the all-absent movie. -/
theorem c8_single_reference_defaults_witness :
    (formatMovieForDB movieBare).collection = none ∧
    (formatMovieForDB movieBare).language = "language:en" :=
  ⟨(c8_single_reference_defaults movieBare).1 rfl,
    (c8_single_reference_defaults movieBare).2.2 (Or.inl rfl)⟩

/-- C10: `escapeStr` output safety.  Every character of the output differs
from literal newline, carriage return, tab and form feed; the output never
starts with a single quote and, between any two consecutive output
characters, a single quote may only directly follow a backslash (so every
single quote is immediately preceded by one — backslashes having been
escaped first); and the falsy inputs `undefined` and `""` yield `""`. -/
theorem c10_escapeStr_safety (s : List Char) (c : Char)
    (hmem : c ∈ escapeStr (some s)) :
    (c ≠ '\n' ∧ c ≠ '\r' ∧ c ≠ '\t' ∧ c ≠ '\x0c') ∧
    (∀ h, (escapeStr (some s)).head? = some h → h ≠ '\x27') ∧
    List.Chain' quoteRel (escapeStr (some s)) ∧
    escapeStr none = [] ∧ escapeStr (some []) = [] := by
  by_cases hs : s = []
  · subst hs
    simp [escapeStr] at hmem
  · have he : escapeStr (some s) = s.flatMap escChar := by
      simp [escapeStr, hs, escapeStrChars_eq_flatMap]
    rw [he] at hmem ⊢
    exact ⟨flatMap_escChar_no_control s c hmem,
      fun h hh => flatMap_escChar_head_ne_quote s h hh,
      flatMap_escChar_chain s, rfl, rfl⟩

/-- Witness for C10 on a string containing a quote, a backslash and a
newline. -/
theorem c10_escapeStr_safety_witness :
    ('d' ∈ escapeStr (some (("d\x27n\\m\n").toList))) ∧
    ('d' ≠ '\n' ∧ 'd' ≠ '\r' ∧ 'd' ≠ '\t' ∧ 'd' ≠ '\x0c') ∧
    List.Chain' quoteRel (escapeStr (some (("d\x27n\\m\n").toList))) :=
  ⟨by decide,
    (c10_escapeStr_safety (("d\x27n\\m\n").toList) 'd' (by decide)).1,
    (c10_escapeStr_safety (("d\x27n\\m\n").toList) 'd' (by decide)).2.2.1⟩

end SurrealStuff
